import Mathlib

set_option maxHeartbeats 1000000
set_option maxRecDepth 8192

namespace VectorSearch

/-
Shallow embedding of the vector search engine core
(repository `sdsasf/vector_search_engine`).

Part 1: the EBR (epoch-based reclamation) manager, from
`src/include/ebr_manager.h`.  The manager is embedded as a sequential
transition system over the four public operations `enter_rcu_read`,
`exit_rcu_read`, `defer_delete` and `collect`, each tagged with the id of the
calling thread; an execution is a list of such operations interpreted from the
initial state.  Deleter invocations performed by `reclaim_epoch_bucket` are
recorded in a ghost log `freed` together with the value of `global_epoch_`
at the moment the deleter ran.
-/

/-- A retired pointer record (`EBRManager::RetiredNode`): `{ptr, deleter_fn,
retire_epoch}`.  Pointers are modelled as naturals, `0` playing the role of
`nullptr`; the deleter function identity is immaterial to the reclamation
protocol and is dropped. -/
structure RetiredNode where
  ptr : Nat
  retireEpoch : Nat
deriving DecidableEq, Repr

/-- Per-thread participant slot (`EBRManager::Participant`):
`{local_epoch, pin_count, active, local_retired}`. -/
structure Participant where
  localEpoch : Nat
  pinCount : Nat
  active : Bool
  localRetired : List RetiredNode
deriving DecidableEq, Repr

/-- A freshly constructed participant slot (all atomics zero-initialised). -/
def Participant.init : Participant := ⟨0, 0, false, []⟩

/-- One deleter invocation performed by `reclaim_epoch_bucket`, recording the
retire epoch stamped on the node and the value of `global_epoch_` in the state
where the deleter ran. -/
structure FreeEvent where
  ptr : Nat
  retireEpoch : Nat
  epochAtFree : Nat
deriving DecidableEq, Repr

/-- Global state of `EBRManager`: the monotonic `global_epoch_` (starting
at 1), the list of registered participant slots keyed by thread id, the
epoch-bucketed global retirement lists (`global_retired_`, indexed by
`epoch % 3`; only indices `0`, `1`, `2` are ever touched), and the ghost log
of deleter invocations. -/
structure EBRState where
  globalEpoch : Nat
  registered : List Nat
  parts : Nat → Participant
  buckets : Nat → List RetiredNode
  freed : List FreeEvent

/-- Initial manager state: `global_epoch_{1}`, no registered threads, empty
buckets. -/
def EBRState.init : EBRState :=
  ⟨1, [], fun _ => Participant.init, fun _ => [], []⟩

/-- `kLocalBatchThreshold = 64`. -/
def kLocalBatchThreshold : Nat := 64

/-- Lazy thread registration (`ThreadSlot` constructor /
`EBRManager::register_thread`): performed on a thread's first touch of the
manager. -/
def registerThread (t : Nat) (s : EBRState) : EBRState :=
  if t ∈ s.registered then s else { s with registered := s.registered ++ [t] }

/-- `EBRManager::enter_rcu_read`: if the thread's pin count is `0`, publish
the current global epoch into the participant slot and set `active`; in all
cases increment the pin count. -/
def enterStep (t : Nat) (s : EBRState) : EBRState :=
  let s' := registerThread t s
  let p := s'.parts t
  let p' : Participant :=
    if p.pinCount = 0 then
      { p with localEpoch := s'.globalEpoch, active := true, pinCount := p.pinCount + 1 }
    else
      { p with pinCount := p.pinCount + 1 }
  { s' with parts := Function.update s'.parts t p' }

/-- `EBRManager::flush_local_retired`: push every locally retired node onto
the global bucket indexed by `retire_epoch % 3` (in order), then clear the
local list. -/
def flushLocalRetired (t : Nat) (s : EBRState) : EBRState :=
  let p := s.parts t
  { s with
    buckets := p.localRetired.foldl
      (fun bk n => Function.update bk (n.retireEpoch % 3) (bk (n.retireEpoch % 3) ++ [n]))
      s.buckets,
    parts := Function.update s.parts t { p with localRetired := [] } }

/-- `EBRManager::maybe_flush_local_retired`: flush when the local list holds
at least `kLocalBatchThreshold / 2` nodes. -/
def maybeFlushLocalRetired (t : Nat) (s : EBRState) : EBRState :=
  if kLocalBatchThreshold / 2 ≤ (s.parts t).localRetired.length then
    flushLocalRetired t s
  else s

/-- `EBRManager::exit_rcu_read`: if the pin count is `≤ 1`, reset it to `0`,
clear `active` and maybe flush the local retired batch; otherwise just
decrement the pin count. -/
def exitStep (t : Nat) (s : EBRState) : EBRState :=
  let s' := registerThread t s
  let p := s'.parts t
  if p.pinCount ≤ 1 then
    maybeFlushLocalRetired t
      { s' with parts := Function.update s'.parts t { p with pinCount := 0, active := false } }
  else
    { s' with parts := Function.update s'.parts t { p with pinCount := p.pinCount - 1 } }

/-- `EBRManager::can_advance_epoch`: every currently active registered
participant must have published `observed_epoch`. -/
def canAdvanceEpoch (s : EBRState) (observed : Nat) : Bool :=
  s.registered.all fun t =>
    let p := s.parts t
    !p.active || (p.localEpoch == observed)

/-- `EBRManager::reclaim_epoch_bucket`: scan the bucket `safe_epoch % 3`,
run the deleter of every node with `retire_epoch ≤ safe_epoch` (logged in
`freed` with the current global epoch) and compact the survivors in order. -/
def reclaimEpochBucket (safeEpoch : Nat) (s : EBRState) : EBRState :=
  let bucket := s.buckets (safeEpoch % 3)
  let freedNow := bucket.filter fun n => n.retireEpoch ≤ safeEpoch
  let kept := bucket.filter fun n => ¬ (n.retireEpoch ≤ safeEpoch)
  { s with
    buckets := Function.update s.buckets (safeEpoch % 3) kept,
    freed := s.freed ++ freedNow.map fun n => ⟨n.ptr, n.retireEpoch, s.globalEpoch⟩ }

/-- `EBRManager::try_advance_epoch_and_reclaim`: CAS the global epoch forward
by one when permitted, then, if the (possibly advanced) epoch is at least 2,
reclaim the bucket of epoch `current - 2`. -/
def tryAdvanceEpochAndReclaim (s : EBRState) : EBRState :=
  let observed := s.globalEpoch
  let s' := if canAdvanceEpoch s observed then { s with globalEpoch := observed + 1 } else s
  let current := s'.globalEpoch
  if current < 2 then s' else reclaimEpochBucket (current - 2) s'

/-- `EBRManager::defer_delete(ptr, deleter)`: ignore null pointers; stamp the
node with the current global epoch and push it onto the thread's local
retired list; on reaching the batch threshold, flush and try to
advance/reclaim. -/
def deferDelete (t : Nat) (ptr : Nat) (s : EBRState) : EBRState :=
  if ptr = 0 then s
  else
    let s' := registerThread t s
    let epoch := s'.globalEpoch
    let p := s'.parts t
    let p' := { p with localRetired := p.localRetired ++ [⟨ptr, epoch⟩] }
    let s'' := { s' with parts := Function.update s'.parts t p' }
    if kLocalBatchThreshold ≤ p'.localRetired.length then
      tryAdvanceEpochAndReclaim (flushLocalRetired t s'')
    else s''

/-- `EBRManager::collect`: flush the calling thread's local batch and try to
advance/reclaim. -/
def collectStep (t : Nat) (s : EBRState) : EBRState :=
  tryAdvanceEpochAndReclaim (flushLocalRetired t (registerThread t s))

/-- A public EBR operation, tagged with the calling thread id. -/
inductive EBROp where
  | enter (t : Nat)
  | exitOp (t : Nat)
  | defer (t : Nat) (ptr : Nat)
  | collect (t : Nat)
deriving DecidableEq, Repr

/-- Interpret one operation. -/
def ebrStep (s : EBRState) (op : EBROp) : EBRState :=
  match op with
  | .enter t => enterStep t s
  | .exitOp t => exitStep t s
  | .defer t ptr => deferDelete t ptr s
  | .collect t => collectStep t s

/-- Interpret a whole execution from the initial state. -/
def ebrRun (ops : List EBROp) : EBRState :=
  ops.foldl ebrStep EBRState.init

/-- The two-epoch grace property of a state: every logged deleter invocation
happened at a global epoch at least two beyond the node's retire epoch. -/
def GraceOK (s : EBRState) : Prop :=
  ∀ e ∈ s.freed, e.retireEpoch + 2 ≤ e.epochAtFree

/-- A concrete execution that actually frees something: thread 0 retires
pointer 1 at epoch 1, then two `collect` calls advance the epoch to 3 and
reclaim the epoch-1 bucket, running the deleter. -/
def opsC1 : List EBROp :=
  [EBROp.defer 0 1, EBROp.collect 0, EBROp.collect 0]

/-
Part 2: the flat write buffer, from `src/include/write_buffer.h`
(`struct FlatWriteBuffer` in the `engine.h` translation unit of
`src/include`), and the tagged `{id, dist}` pair `NodeDist` from the HNSW
header.  Distances are floats compared with `<` in the source; the embedding
keeps distances abstract as rationals, which preserves every comparison the
algorithms make.  A `std::priority_queue<NodeDist>` is modelled as a list
kept sorted by ascending distance: its top (the maximum) is the last
element, and the push-then-pop-if-oversize idiom is `pushBounded`.
-/

/-- `NodeDist`: tagged `{id, dist}` pair with distance-ordered comparison. -/
structure NodeDist where
  id : Nat
  dist : ℚ
deriving DecidableEq, Repr

/-- The comparison `NodeDist::operator<` induces: order by distance only. -/
def ndLE (a b : NodeDist) : Prop := a.dist ≤ b.dist

instance : DecidableRel ndLE := fun a b => inferInstanceAs (Decidable (a.dist ≤ b.dist))

instance : IsTotal NodeDist ndLE := ⟨fun a b => le_total a.dist b.dist⟩

instance : IsTrans NodeDist ndLE := ⟨fun _ _ _ h1 h2 => le_trans h1 h2⟩

/-- `top_candidates.top().dist` on the max-heap: the largest distance held
(the heap is never consulted on an empty queue along the embedded paths). -/
def topWorst (l : List NodeDist) : ℚ := ((l.getLast?).map NodeDist.dist).getD 0

/-- Push onto a bounded max-heap of size `k`, evicting the current maximum
when the size exceeds `k` (`push` followed by `if size > k then pop`). -/
def pushBounded (k : Nat) (x : NodeDist) (l : List NodeDist) : List NodeDist :=
  let l' := List.orderedInsert ndLE x l
  if k < l'.length then l'.dropLast else l'

/-- `FlatWriteBuffer`: an atomic `count`, a fixed `capacity` and the id
array; the vector payload is abstracted away (slots only record the id
committed there, `none` for never-written slots). -/
structure FlatWriteBuffer where
  count : Nat
  capacity : Nat
  ids : Nat → Option Nat

/-- A freshly constructed buffer: `count = 0`. -/
def initBuffer (cap : Nat) : FlatWriteBuffer :=
  ⟨0, cap, fun _ => none⟩

/-- `FlatWriteBuffer::append_wait_free`: fetch-add a slot from `count`
unconditionally; if the slot is past `capacity`, return `false` (the counter
stays incremented); otherwise commit the record and return `true`. -/
def appendWaitFree (b : FlatWriteBuffer) (id : Nat) : Bool × FlatWriteBuffer :=
  let idx := b.count
  let b' := { b with count := b.count + 1 }
  if b.capacity ≤ idx then (false, b')
  else (true, { b' with ids := Function.update b'.ids idx (some id) })

/-- Run a sequence of appends; also count how many returned `false`. -/
def runAppends : FlatWriteBuffer → List Nat → FlatWriteBuffer × Nat
  | b, [] => (b, 0)
  | b, id :: rest =>
    let r := appendWaitFree b id
    let rf := runAppends r.2 rest
    (rf.1, (if r.1 then 0 else 1) + rf.2)

/-- The slot range scanned by `FlatWriteBuffer::search_brute_force`: the
loaded `count` clamped to `capacity`. -/
def clampedCount (b : FlatWriteBuffer) : Nat := min b.count b.capacity

/-- `FlatWriteBuffer::search_brute_force`: linear scan of the clamped slot
range, feeding the caller's bounded max-heap.  `dv i` abstracts
`l2_distance_avx2(query, data + i*dim, dim)`. -/
def searchBruteForce (dv : Nat → ℚ) (k : Nat) (b : FlatWriteBuffer)
    (top : List NodeDist) : List NodeDist :=
  (List.range (clampedCount b)).foldl
    (fun tc i =>
      let d := dv i
      if tc.length < k ∨ d < topWorst tc then
        pushBounded k ⟨(b.ids i).getD 0, d⟩ tc
      else tc)
    top

/-- The slot range scanned by `VectorEngine::background_flush_loop` when it
folds a sealed buffer into the graph: the loaded `count`, clamped to the
engine's `buffer_capacity_`. -/
def bgFlushScanCount (bufferCapacity : Nat) (b : FlatWriteBuffer) : Nat :=
  min b.count bufferCapacity

/-
Part 3: the HNSW index, from `src/include/hnsw_node.h` (`HnswNode`,
`NeighborList`, `add_neighbor_rcu`) and the index header in
`src/unnamed/part_002` (`class HnswIndex`).  The embedding is sequential:
each operation runs atomically, CAS always succeeds on the first try, and the
EBR read-side bracketing performed by `insert` / `search_knn` is omitted
because reclamation never changes the index state (it is modelled separately
in Part 1).  Vector payloads are abstracted: a distance oracle
`d : Nat → Nat → ℚ` stands for `l2_distance_avx2` between the vectors stored
at two node ids, and `dq : Nat → ℚ` for the distance from a query vector to a
node id; the algorithms only compare distances, so every control decision is
preserved.  The random draw of `get_random_level` is passed in as an explicit
`lvl` argument.  A neighbor-list pointer that is `nullptr` and an empty list
behave identically in every reader, and `add_neighbor_rcu` /
`add_neighbor_inplace` treat them the same way, so neighbor lists are plain
`List Nat`s with `[]` for null.
-/

/-- `MAX_HNSW_LEVELS = 16`. -/
def MAX_HNSW_LEVELS : Nat := 16

/-- State of an `HnswIndex`: construction parameters, the atomic entry point
and global `max_level` (an `int` starting at `-1`), each node's `level`
(`none` until the node is first initialised) and per-layer neighbor lists. -/
structure HnswState where
  maxElements : Nat
  M : Nat
  efC : Nat
  maxLevel : Int
  ep : Nat
  level : Nat → Option Nat
  adj : Nat → Nat → List Nat

/-- A freshly constructed index: `enter_point_id_ = 0`, `max_level_ = -1`,
no node initialised. -/
def initIndex (maxElements M efC : Nat) : HnswState :=
  ⟨maxElements, M, efC, -1, 0, fun _ => none, fun _ _ => []⟩

/-- `HnswNode::init`: store the node's level and null all its layer
pointers. -/
def nodeInit (s : HnswState) (id lvl : Nat) : HnswState :=
  { s with level := Function.update s.level id (some lvl),
           adj := Function.update s.adj id (fun _ => []) }

/-- `HnswNode::add_neighbor_rcu`: no-op for `layer ≥ MAX_HNSW_LEVELS`;
otherwise publish a copy of the layer's list with the new id appended
(sequentially the CAS succeeds at once; the old list goes to `defer_free`). -/
def addNeighborRcu (s : HnswState) (u layer v : Nat) : HnswState :=
  if MAX_HNSW_LEVELS ≤ layer then s
  else
    let nl := Function.update (s.adj u) layer (s.adj u layer ++ [v])
    { s with adj := Function.update s.adj u nl }

/-- State of `search_layer`'s loop: the bounded max-heap `top_candidates`,
the min-heap `candidates` (both kept as distance-sorted ascending lists) and
the visited set. -/
structure SLState where
  top : List NodeDist
  cand : List NodeDist
  visited : List Nat

/-- The neighbor-expansion loop body of `search_layer`: each unvisited
neighbor is marked visited, its distance computed, and it is admitted to both
heaps when it improves the current frontier (evicting the worst when `top`
exceeds `ef`). -/
def expandNeighbors (dq : Nat → ℚ) (ef : Nat) : List Nat → SLState → SLState
  | [], st => st
  | n :: ns, st =>
    if n ∈ st.visited then expandNeighbors dq ef ns st
    else
      let st' : SLState := { st with visited := n :: st.visited }
      let dn := dq n
      if st'.top.length < ef ∨ dn < topWorst st'.top then
        expandNeighbors dq ef ns
          { st' with cand := List.orderedInsert ndLE ⟨n, dn⟩ st'.cand,
                     top := pushBounded ef ⟨n, dn⟩ st'.top }
      else expandNeighbors dq ef ns st'

/-- The main loop of `search_layer`: pop the nearest candidate `c`; stop when
`c.dist > top.top().dist ∧ |top| == ef`; otherwise expand `c`'s neighbors at
the current layer.  The loop also ends when the candidate heap empties; the
`fuel` parameter bounds the number of iterations of the embedding. -/
def searchLoop (dq : Nat → ℚ) (adjL : Nat → List Nat) (ef : Nat) :
    Nat → SLState → SLState
  | 0, st => st
  | fuel + 1, st =>
    match st.cand with
    | [] => st
    | c :: rest =>
      if topWorst st.top < c.dist ∧ st.top.length = ef then st
      else searchLoop dq adjL ef fuel
        (expandNeighbors dq ef (adjL c.id) { st with cand := rest })

/-- `HnswIndex::search_layer`: seed both heaps and the visited set with the
entry point, run the loop, and return the frontier's ids by ascending
distance (the source pops the max-heap and reverses). -/
def searchLayerE (dq : Nat → ℚ) (adj : Nat → Nat → List Nat)
    (level ep ef fuel : Nat) : List Nat :=
  let d0 := dq ep
  let st0 : SLState := ⟨[⟨ep, d0⟩], [⟨ep, d0⟩], [ep]⟩
  ((searchLoop dq (fun u => adj u level) ef fuel st0).top).map NodeDist.id

/-- One full scan of `curr_obj`'s neighbors in the greedy descent: track the
closest improvement and whether anything improved. -/
def greedyScan (dq : Nat → ℚ) (nbrs : List Nat) (acc : Nat × ℚ × Bool) :
    Nat × ℚ × Bool :=
  nbrs.foldl
    (fun acc cid =>
      let dc := dq cid
      if dc < acc.2.1 then (cid, dc, true) else acc)
    acc

/-- The `while (changed)` greedy walk at one layer. -/
def greedyLevel (dq : Nat → ℚ) (adjL : Nat → List Nat) :
    Nat → Nat × ℚ → Nat × ℚ
  | 0, c => c
  | fuel + 1, c =>
    let r := greedyScan dq (adjL c.1) (c.1, c.2, false)
    if r.2.2 then greedyLevel dq adjL fuel (r.1, r.2.1) else (r.1, r.2.1)

/-- The vertical greedy descent of `insert` / `search_knn`: walk layers
`hi, hi-1, …, lo+1` (empty when `hi ≤ lo`). -/
def descend (dq : Nat → ℚ) (adj : Nat → Nat → List Nat)
    (fuel hi lo : Nat) (start : Nat × ℚ) : Nat × ℚ :=
  ((List.range (hi - lo)).map (fun i => hi - i)).foldl
    (fun c level => greedyLevel dq (fun u => adj u level) fuel c) start

/-- The per-layer connection fold of the streaming `insert`: for each
selected neighbor `nb`, `new_node->add_neighbor_rcu(level, nb)` then
`get_node(nb)->add_neighbor_rcu(level, id)`. -/
def connectFold (level id : Nat) (sel : List Nat) (s : HnswState) : HnswState :=
  sel.foldl (fun s nb => addNeighborRcu (addNeighborRcu s id level nb) nb level id) s

/-- The per-layer body of the streaming `insert`: connect the
`min(|top_candidates|, M_)` nearest candidates bidirectionally. -/
def connectNeighbors (s : HnswState) (level id : Nat) (cands : List Nat) : HnswState :=
  connectFold level id (cands.take (min cands.length s.M)) s

/-- `[m, m-1, …, 0]`: the descending layer range of insert phase two. -/
def downFrom : Nat → List Nat
  | 0 => [0]
  | m + 1 => (m + 1) :: downFrom m

/-- Phase two of the streaming `insert`: at each layer run `search_layer`
with `ef_construction`, connect, and carry the closest candidate as the next
layer's entry. -/
def insertLayersStream (d : Nat → Nat → ℚ) (fuel id : Nat)
    (levels : List Nat) (sc : HnswState × Nat) : HnswState × Nat :=
  levels.foldl
    (fun p level =>
      let cands := searchLayerE (d id) p.1.adj level p.2 p.1.efC fuel
      (connectNeighbors p.1 level id cands, cands.headD p.2))
    sc

/-- `HnswIndex::insert` (streaming): initialise the node, handle the cold
start, descend to the target layer, connect layer by layer, and finally
publish a new entry point when the node's level exceeds the snapshot
`max_level` (re-checked under the lock, which in the sequential embedding is
the same value). -/
def insertStream (d : Nat → Nat → ℚ) (fuel : Nat) (s : HnswState) (id lvl : Nat) :
    HnswState :=
  let s1 := nodeInit s id lvl
  let cm := s1.maxLevel
  if cm = -1 then
    { s1 with ep := id, maxLevel := (lvl : Int) }
  else
    let dq := d id
    let start : Nat × ℚ := (s1.ep, dq s1.ep)
    let entry := descend dq s1.adj fuel cm.toNat lvl start
    let minLevel := (min cm (lvl : Int)).toNat
    let res := insertLayersStream d fuel id (downFrom minLevel) (s1, entry.1)
    if (lvl : Int) > cm then { res.1 with ep := id, maxLevel := (lvl : Int) }
    else res.1

/-- The comparison `std::sort` uses on `std::pair<float, uint32_t>`:
lexicographic (distance, id). -/
def pairLe (x y : ℚ × Nat) : Prop := x.1 < y.1 ∨ (x.1 = y.1 ∧ x.2 ≤ y.2)

instance : DecidableRel pairLe := fun x y =>
  inferInstanceAs (Decidable (x.1 < y.1 ∨ (x.1 = y.1 ∧ x.2 ≤ y.2)))

instance : IsTotal (ℚ × Nat) pairLe := by
  constructor
  intro a b
  rcases lt_trichotomy a.1 b.1 with h | h | h
  · exact Or.inl (Or.inl h)
  · rcases Nat.le_total a.2 b.2 with h2 | h2
    · exact Or.inl (Or.inr ⟨h, h2⟩)
    · exact Or.inr (Or.inr ⟨h.symm, h2⟩)
  · exact Or.inr (Or.inl h)

instance : IsTrans (ℚ × Nat) pairLe := by
  constructor
  intro a b c hab hbc
  rcases hab with h1 | ⟨h1, h1'⟩
  · rcases hbc with h2 | ⟨h2, _⟩
    · exact Or.inl (h1.trans h2)
    · exact Or.inl (h2 ▸ h1)
  · rcases hbc with h2 | ⟨h2, h2'⟩
    · exact Or.inl (h1 ▸ h2)
    · exact Or.inr ⟨h1.trans h2, h1'.trans h2'⟩

/-- The candidate vector of `add_neighbor_inplace`'s pruning pass: all
current entries paired with their distance to the node, sorted by
`std::sort`'s pair order. -/
def sortedCands (d : Nat → Nat → ℚ) (node : Nat) (l : List Nat) : List (ℚ × Nat) :=
  List.insertionSort pairLe (l.map fun c => (d node c, c))

/-- The greedy heuristic selection pass: walk the sorted candidates, keeping
`c` iff no already-selected `s` satisfies `d(c, s) < d(node, c)`, stopping at
`max_m` entries. -/
def heurSelect (d : Nat → Nat → ℚ) (node maxM : Nat) :
    List (ℚ × Nat) → List Nat → List Nat
  | [], sel => sel
  | c :: rest, sel =>
    if maxM ≤ sel.length then sel
    else if sel.all (fun sid => decide (¬ (d c.2 sid < c.1))) then
      heurSelect d node maxM rest (sel ++ [c.2])
    else heurSelect d node maxM rest sel

/-- The backfill pass: top the selection up to `max_m` from the sorted
candidates in order, skipping ids already present. -/
def backfillFrom (maxM : Nat) : List (ℚ × Nat) → List Nat → List Nat
  | [], sel => sel
  | c :: rest, sel =>
    if maxM ≤ sel.length then sel
    else if c.2 ∈ sel then backfillFrom maxM rest sel
    else backfillFrom maxM rest (sel ++ [c.2])

/-- The heuristic pruning of `add_neighbor_inplace` (triggered when
`count > max_m`): heuristic pass, then backfill when short. -/
def pruneNeighborList (d : Nat → Nat → ℚ) (node maxM : Nat) (l1 : List Nat) :
    List Nat :=
  let cands := sortedCands d node l1
  let sel := heurSelect d node maxM cands []
  if sel.length < maxM then backfillFrom maxM cands sel else sel

/-- `HnswIndex::add_neighbor_inplace`, list level: allocate-on-null is the
empty list; return unchanged if `new_id` is already present; append
unconditionally (the overflow slot guarantees room); prune if the count now
exceeds `max_m`. -/
def addNeighborInplaceList (d : Nat → Nat → ℚ) (node maxM : Nat)
    (list0 : List Nat) (newId : Nat) : List Nat :=
  if newId ∈ list0 then list0
  else
    let l1 := list0 ++ [newId]
    if maxM < l1.length then pruneNeighborList d node maxM l1 else l1

/-- `HnswIndex::add_neighbor_inplace`, state level (no-op above
`MAX_HNSW_LEVELS`, like the RCU path). -/
def addNeighborInplace (d : Nat → Nat → ℚ) (s : HnswState)
    (node layer newId maxM : Nat) : HnswState :=
  if MAX_HNSW_LEVELS ≤ layer then s
  else
    let nl := Function.update (s.adj node) layer
      (addNeighborInplaceList d node maxM (s.adj node layer) newId)
    { s with adj := Function.update s.adj node nl }

/-- The per-layer body of `insert_bulk`: connect the `min(|cands|, M_)`
nearest candidates bidirectionally in place, with
`max_m = M0 = 2M` at layer 0 and `M` above. -/
def connectNeighborsBulk (d : Nat → Nat → ℚ) (s : HnswState)
    (level id : Nat) (cands : List Nat) : HnswState :=
  let maxM := if level = 0 then s.M * 2 else s.M
  (cands.take (min cands.length s.M)).foldl
    (fun s nb => addNeighborInplace d (addNeighborInplace d s id level nb maxM) nb level id maxM)
    s

/-- Phase two of `insert_bulk`. -/
def insertLayersBulk (d : Nat → Nat → ℚ) (fuel id : Nat)
    (levels : List Nat) (sc : HnswState × Nat) : HnswState × Nat :=
  levels.foldl
    (fun p level =>
      let cands := searchLayerE (d id) p.1.adj level p.2 p.1.efC fuel
      (connectNeighborsBulk d p.1 level id cands, cands.headD p.2))
    sc

/-- `HnswIndex::insert_bulk`: identical skeleton to the streaming insert,
with in-place spinlocked edge updates instead of RCU publication. -/
def insertBulk (d : Nat → Nat → ℚ) (fuel : Nat) (s : HnswState) (id lvl : Nat) :
    HnswState :=
  let s1 := nodeInit s id lvl
  let cm := s1.maxLevel
  if cm = -1 then
    { s1 with ep := id, maxLevel := (lvl : Int) }
  else
    let dq := d id
    let start : Nat × ℚ := (s1.ep, dq s1.ep)
    let entry := descend dq s1.adj fuel cm.toNat lvl start
    let minLevel := (min cm (lvl : Int)).toNat
    let res := insertLayersBulk d fuel id (downFrom minLevel) (s1, entry.1)
    if (lvl : Int) > cm then { res.1 with ep := id, maxLevel := (lvl : Int) }
    else res.1

/-- `HnswIndex::search_knn`: empty result on an empty index
(`max_level_ == -1`); otherwise greedy-descend to layer 1, run
`search_layer(query, curr, max(k, ef_search), 0)` and truncate to `k`. -/
def searchKnn (dq : Nat → ℚ) (s : HnswState) (k efSearch fuel : Nat) : List Nat :=
  let cm := s.maxLevel
  if cm = -1 then []
  else
    let start : Nat × ℚ := (s.ep, dq s.ep)
    let entry := descend dq s.adj fuel cm.toNat 0 start
    (searchLayerE dq s.adj 0 entry.1 (max k efSearch) fuel).take k

/-- An insert operation: `(is_bulk, id, level)`, the level being the value
drawn by `get_random_level`. -/
def hnswStep (d : Nat → Nat → ℚ) (fuel : Nat) (s : HnswState)
    (op : Bool × Nat × Nat) : HnswState :=
  if op.1 then insertBulk d fuel s op.2.1 op.2.2
  else insertStream d fuel s op.2.1 op.2.2

/-- Run a sequence of `insert` / `insert_bulk` operations. -/
def runInserts (d : Nat → Nat → ℚ) (fuel : Nat) (s0 : HnswState)
    (ops : List (Bool × Nat × Nat)) : HnswState :=
  ops.foldl (hnswStep d fuel) s0

/-- The entry-point invariant of the claim: whenever `max_level ≥ 0`, the
node currently published as entry point has `top_level = max_level`. -/
def EntryInv (s : HnswState) : Prop :=
  0 ≤ s.maxLevel → s.level s.ep = some s.maxLevel.toNat

/-- The concrete distance oracle of the C2 counterexample: node 2's vector is
at distance 1 from node 0 and 2 from node 1; all other pairs are at
distance 1 (0 on the diagonal). -/
def dC2 : Nat → Nat → ℚ :=
  fun a b =>
    if a = b then 0
    else if (a = 2 ∧ b = 1) ∨ (a = 1 ∧ b = 2) then 2
    else 1

/-- Invariant of the `search_layer` loop state: the frontier holds at most
`ef` entries, is sorted by ascending distance, and every stored distance is
the query distance of its id. -/
def SLInv (dq : Nat → ℚ) (ef : Nat) (st : SLState) : Prop :=
  st.top.length ≤ ef ∧ st.top.Sorted ndLE ∧ ∀ x ∈ st.top, x.dist = dq x.id

/-
Theorems: helper lemmas first, then one theorem per claim (with its
witness or counterexample).
-/

lemma graceOK_registerThread {s : EBRState} (h : GraceOK s) (t : Nat) :
    GraceOK (registerThread t s) := by
  unfold registerThread
  split <;> simpa [GraceOK] using h

lemma graceOK_flushLocalRetired {s : EBRState} (h : GraceOK s) (t : Nat) :
    GraceOK (flushLocalRetired t s) := by
  simpa [GraceOK, flushLocalRetired] using h

lemma graceOK_maybeFlushLocalRetired {s : EBRState} (h : GraceOK s) (t : Nat) :
    GraceOK (maybeFlushLocalRetired t s) := by
  unfold maybeFlushLocalRetired
  split
  · exact graceOK_flushLocalRetired h t
  · exact h

lemma graceOK_reclaimEpochBucket {s : EBRState} (h : GraceOK s) (safeEpoch : Nat)
    (hsafe : safeEpoch + 2 ≤ s.globalEpoch) :
    GraceOK (reclaimEpochBucket safeEpoch s) := by
  intro e he
  simp only [reclaimEpochBucket, List.mem_append, List.mem_map] at he
  rcases he with he | ⟨n, hn, rfl⟩
  · exact h e he
  · have := List.of_mem_filter hn
    have hle : n.retireEpoch ≤ safeEpoch := by simpa using this
    simp only
    omega

lemma graceOK_reclaim_aux {s : EBRState} (h : GraceOK s) :
    GraceOK (if s.globalEpoch < 2 then s else reclaimEpochBucket (s.globalEpoch - 2) s) := by
  split
  · exact h
  · next hcur => exact graceOK_reclaimEpochBucket h _ (by omega)

lemma graceOK_tryAdvance {s : EBRState} (h : GraceOK s) :
    GraceOK (tryAdvanceEpochAndReclaim s) := by
  have h' :
      GraceOK (if canAdvanceEpoch s s.globalEpoch then
        { s with globalEpoch := s.globalEpoch + 1 } else s) := by
    split <;> simpa [GraceOK] using h
  exact graceOK_reclaim_aux h'

lemma graceOK_enterStep {s : EBRState} (h : GraceOK s) (t : Nat) :
    GraceOK (enterStep t s) := by
  have := graceOK_registerThread h t
  simpa [GraceOK, enterStep] using this

lemma graceOK_exitStep {s : EBRState} (h : GraceOK s) (t : Nat) :
    GraceOK (exitStep t s) := by
  unfold exitStep
  have h1 := graceOK_registerThread h t
  simp only
  split
  · exact graceOK_maybeFlushLocalRetired (by simpa [GraceOK] using h1) t
  · simpa [GraceOK] using h1

lemma graceOK_deferDelete {s : EBRState} (h : GraceOK s) (t ptr : Nat) :
    GraceOK (deferDelete t ptr s) := by
  unfold deferDelete
  split
  · exact h
  · have h1 := graceOK_registerThread h t
    simp only
    split
    · exact graceOK_tryAdvance (graceOK_flushLocalRetired (by simpa [GraceOK] using h1) t)
    · simpa [GraceOK] using h1

lemma graceOK_collectStep {s : EBRState} (h : GraceOK s) (t : Nat) :
    GraceOK (collectStep t s) := by
  exact graceOK_tryAdvance (graceOK_flushLocalRetired (graceOK_registerThread h t) t)

lemma graceOK_ebrStep {s : EBRState} (h : GraceOK s) (op : EBROp) :
    GraceOK (ebrStep s op) := by
  cases op with
  | enter t => exact graceOK_enterStep h t
  | exitOp t => exact graceOK_exitStep h t
  | defer t ptr => exact graceOK_deferDelete h t ptr
  | collect t => exact graceOK_collectStep h t

lemma graceOK_foldl {s : EBRState} (h : GraceOK s) (ops : List EBROp) :
    GraceOK (ops.foldl ebrStep s) := by
  induction ops generalizing s with
  | nil => exact h
  | cons op rest ih => exact ih (graceOK_ebrStep h op)

/-- C1: across every sequence of `enter` / `exit` / `defer` / `collect`
operations, every deleter invocation performed by reclamation happens in a
state whose global epoch is at least the node's retire epoch plus two. -/
theorem C1_ebr_two_epoch_grace (ops : List EBROp) :
    ∀ e ∈ (ebrRun ops).freed, e.retireEpoch + 2 ≤ e.epochAtFree :=
  graceOK_foldl (by intro e he; simp [EBRState.init] at he) ops

theorem C1_ebr_two_epoch_grace_witness :
    (⟨1, 1, 3⟩ : FreeEvent) ∈ (ebrRun opsC1).freed ∧ (1 : Nat) + 2 ≤ 3 :=
  ⟨by decide, C1_ebr_two_epoch_grace opsC1 ⟨1, 1, 3⟩ (by decide)⟩

/-- C7: EBR `enter`/`exit` nesting discipline.  On `enter`, the pin counter
increments; only an enter from pin count 0 publishes the current global epoch
and sets `active`; an inner enter leaves `local_epoch` and `active`
untouched.  On `exit` from a positive pin count, the counter decrements,
`local_epoch` is never changed, only the exit from pin count 1 clears
`active`, and an inner exit leaves `active` untouched. -/
lemma registerThread_parts (t : Nat) (s : EBRState) :
    (registerThread t s).parts = s.parts := by
  unfold registerThread; split <;> rfl

lemma registerThread_globalEpoch (t : Nat) (s : EBRState) :
    (registerThread t s).globalEpoch = s.globalEpoch := by
  unfold registerThread; split <;> rfl

lemma maybeFlush_pin (t : Nat) (s' : EBRState) :
    ((maybeFlushLocalRetired t s').parts t).pinCount = (s'.parts t).pinCount := by
  unfold maybeFlushLocalRetired flushLocalRetired
  split <;> simp

lemma maybeFlush_epoch (t : Nat) (s' : EBRState) :
    ((maybeFlushLocalRetired t s').parts t).localEpoch = (s'.parts t).localEpoch := by
  unfold maybeFlushLocalRetired flushLocalRetired
  split <;> simp

lemma maybeFlush_active (t : Nat) (s' : EBRState) :
    ((maybeFlushLocalRetired t s').parts t).active = (s'.parts t).active := by
  unfold maybeFlushLocalRetired flushLocalRetired
  split <;> simp

lemma enterStep_parts (t : Nat) (s : EBRState) :
    (enterStep t s).parts t =
      (if (s.parts t).pinCount = 0 then
        { s.parts t with localEpoch := s.globalEpoch, active := true,
                         pinCount := (s.parts t).pinCount + 1 }
      else { s.parts t with pinCount := (s.parts t).pinCount + 1 }) := by
  unfold enterStep
  simp [registerThread_parts, registerThread_globalEpoch]

lemma exitStep_parts (t : Nat) (s : EBRState) (h : 1 ≤ (s.parts t).pinCount) :
    ((exitStep t s).parts t).pinCount = (s.parts t).pinCount - 1 ∧
    ((exitStep t s).parts t).localEpoch = (s.parts t).localEpoch ∧
    ((exitStep t s).parts t).active =
      (if (s.parts t).pinCount = 1 then false else (s.parts t).active) := by
  unfold exitStep
  by_cases hle : (s.parts t).pinCount ≤ 1
  · have h1 : (s.parts t).pinCount = 1 := by omega
    simp [registerThread_parts, hle, h1, maybeFlush_pin, maybeFlush_epoch, maybeFlush_active]
  · simp [registerThread_parts, hle, if_neg (by omega : ¬ (s.parts t).pinCount = 1)]

/-- C7: EBR `enter`/`exit` nesting discipline.  On `enter`, the pin counter
increments; only an enter from pin count 0 publishes the current global epoch
and sets `active`; an inner enter leaves `local_epoch` and `active`
untouched.  On `exit` from a positive pin count, the counter decrements,
`local_epoch` is never changed, only the exit from pin count 1 clears
`active`, and an inner exit leaves `active` untouched. -/
theorem C7_ebr_nesting (s : EBRState) (t : Nat) :
    (((enterStep t s).parts t).pinCount = (s.parts t).pinCount + 1) ∧
    ((s.parts t).pinCount = 0 →
      ((enterStep t s).parts t).localEpoch = s.globalEpoch ∧
      ((enterStep t s).parts t).active = true) ∧
    ((s.parts t).pinCount ≠ 0 →
      ((enterStep t s).parts t).localEpoch = (s.parts t).localEpoch ∧
      ((enterStep t s).parts t).active = (s.parts t).active) ∧
    (1 ≤ (s.parts t).pinCount →
      ((exitStep t s).parts t).pinCount = (s.parts t).pinCount - 1 ∧
      ((exitStep t s).parts t).localEpoch = (s.parts t).localEpoch) ∧
    ((s.parts t).pinCount = 1 → ((exitStep t s).parts t).active = false) ∧
    (2 ≤ (s.parts t).pinCount →
      ((exitStep t s).parts t).active = (s.parts t).active) := by
  have he := enterStep_parts t s
  refine ⟨?_, ?_, ?_, ?_, ?_, ?_⟩
  · rw [he]; split <;> simp
  · intro h0; rw [he, if_pos h0]; exact ⟨rfl, rfl⟩
  · intro h0; rw [he, if_neg h0]; exact ⟨rfl, rfl⟩
  · intro h1
    exact ⟨(exitStep_parts t s h1).1, (exitStep_parts t s h1).2.1⟩
  · intro h1
    rw [(exitStep_parts t s (by omega)).2.2, if_pos h1]
  · intro h2
    rw [(exitStep_parts t s (by omega)).2.2, if_neg (by omega)]

theorem C7_ebr_nesting_witness :
    ((enterStep 0 (enterStep 0 EBRState.init)).parts 0).pinCount = 2 ∧
    ((enterStep 0 (enterStep 0 EBRState.init)).parts 0).localEpoch = 1 ∧
    ((exitStep 0 (enterStep 0 (enterStep 0 EBRState.init))).parts 0).active = true := by
  have h1 := C7_ebr_nesting (enterStep 0 EBRState.init) 0
  have h2 := C7_ebr_nesting (enterStep 0 (enterStep 0 EBRState.init)) 0
  refine ⟨?_, ?_, ?_⟩
  · rw [h1.1]; decide
  · rcases h1.2.2.1 (by decide) with ⟨ha, _⟩
    rw [ha]; decide
  · rcases h2.2.2.2.2 with ⟨_, hinner⟩
    rw [hinner (by decide)]; decide

lemma appendWaitFree_eq (b : FlatWriteBuffer) (id : Nat) :
    appendWaitFree b id =
      if b.capacity ≤ b.count then (false, { b with count := b.count + 1 })
      else (true, { b with count := b.count + 1, ids := Function.update b.ids b.count (some id) }) := rfl

lemma runAppends_count_bound (ids : List Nat) :
    ∀ (b : FlatWriteBuffer) (k : Nat), b.count ≤ b.capacity + k →
      (runAppends b ids).1.count ≤ b.capacity + k + (runAppends b ids).2 := by
  induction ids with
  | nil => intro b k h; simpa [runAppends] using h
  | cons id rest ih =>
    intro b k h
    by_cases hfull : b.capacity ≤ b.count
    · have hrec := ih { b with count := b.count + 1 } (k + 1) (by simp; omega)
      simp [runAppends, appendWaitFree_eq, if_pos hfull] at hrec ⊢
      omega
    · have hrec := ih { b with count := b.count + 1, ids := Function.update b.ids b.count (some id) } k (by simp; omega)
      simp [runAppends, appendWaitFree_eq, if_neg hfull] at hrec ⊢
      omega

/-- C3 counterexample: with `capacity = 1`, the second `append_wait_free`
returns `false` (buffer full) yet leaves `count = 2 > capacity`, because the
slot is claimed with an unconditional fetch-add. -/
theorem C3_count_exceeds_capacity_after_failed_append :
    (appendWaitFree (appendWaitFree (initBuffer 1) 5).2 6).1 = false ∧
    (appendWaitFree (appendWaitFree (initBuffer 1) 5).2 6).2.count = 2 ∧
    ¬ ((appendWaitFree (appendWaitFree (initBuffer 1) 5).2 6).2.count ≤
        (appendWaitFree (appendWaitFree (initBuffer 1) 5).2 6).2.capacity) := by
  refine ⟨rfl, rfl, ?_⟩
  show ¬ (2 ≤ 1)
  decide

/-- C3 (amended): across every sequence of `append_wait_free` calls on a
fresh buffer, `count` never exceeds `capacity` plus the number of appends
that returned `false`; in particular, as long as every append succeeded,
`count` is at most `capacity`. -/
theorem C3_count_bounded_by_failures (cap : Nat) (ids : List Nat) :
    (runAppends (initBuffer cap) ids).1.count ≤
      cap + (runAppends (initBuffer cap) ids).2 ∧
    ((runAppends (initBuffer cap) ids).2 = 0 →
      (runAppends (initBuffer cap) ids).1.count ≤ cap) := by
  have h := runAppends_count_bound ids (initBuffer cap) 0 (by simp [initBuffer])
  have hcap : (initBuffer cap).capacity = cap := rfl
  rw [hcap] at h
  exact ⟨by omega, fun hz => by omega⟩

theorem C3_count_bounded_by_failures_witness :
    (runAppends (initBuffer 2) [7]).1.count ≤ 2 + (runAppends (initBuffer 2) [7]).2 ∧
    (runAppends (initBuffer 2) [7]).1.count ≤ 2 :=
  ⟨(C3_count_bounded_by_failures 2 [7]).1,
   (C3_count_bounded_by_failures 2 [7]).2 (by decide)⟩

/-- C10: both readers clamp the observed `count` to the buffer capacity
before scanning, so even on a buffer whose `count` has overrun `capacity`
every accessed slot index is strictly below `capacity`: the brute-force scan
iterates over `clampedCount` slots, and the background compaction loop over
`count` clamped to the engine's `buffer_capacity_` (which equals the
capacity the buffer was constructed with). -/
theorem C10_readers_clamp_count (b : FlatWriteBuffer) (bufferCapacity : Nat) :
    (∀ i ∈ List.range (clampedCount b), i < b.capacity) ∧
    (b.capacity = bufferCapacity →
      ∀ i ∈ List.range (bgFlushScanCount bufferCapacity b), i < b.capacity) := by
  constructor
  · intro i hi
    have := List.mem_range.mp hi
    unfold clampedCount at this
    omega
  · intro hcap i hi
    have := List.mem_range.mp hi
    unfold bgFlushScanCount at this
    omega

theorem C10_readers_clamp_count_witness :
    (∀ i ∈ List.range (clampedCount (appendWaitFree (appendWaitFree (initBuffer 1) 5).2 6).2),
      i < (appendWaitFree (appendWaitFree (initBuffer 1) 5).2 6).2.capacity) ∧
    (∀ i ∈ List.range (bgFlushScanCount 1 (appendWaitFree (appendWaitFree (initBuffer 1) 5).2 6).2),
      i < (appendWaitFree (appendWaitFree (initBuffer 1) 5).2 6).2.capacity) :=
  ⟨(C10_readers_clamp_count (appendWaitFree (appendWaitFree (initBuffer 1) 5).2 6).2 1).1,
   (C10_readers_clamp_count (appendWaitFree (appendWaitFree (initBuffer 1) 5).2 6).2 1).2 rfl⟩

lemma nodeInit_maxLevel (s : HnswState) (id lvl : Nat) :
    (nodeInit s id lvl).maxLevel = s.maxLevel := rfl

lemma nodeInit_level (s : HnswState) (id lvl : Nat) :
    (nodeInit s id lvl).level = Function.update s.level id (some lvl) := rfl

lemma nodeInit_ep (s : HnswState) (id lvl : Nat) : (nodeInit s id lvl).ep = s.ep := rfl

lemma addNeighborRcu_proj (s : HnswState) (u layer v : Nat) :
    (addNeighborRcu s u layer v).level = s.level ∧
    (addNeighborRcu s u layer v).ep = s.ep ∧
    (addNeighborRcu s u layer v).maxLevel = s.maxLevel ∧
    (addNeighborRcu s u layer v).M = s.M ∧
    (addNeighborRcu s u layer v).efC = s.efC := by
  unfold addNeighborRcu
  split <;> exact ⟨rfl, rfl, rfl, rfl, rfl⟩

lemma connectFold_proj (level id : Nat) (sel : List Nat) :
    ∀ s : HnswState,
      (connectFold level id sel s).level = s.level ∧
      (connectFold level id sel s).ep = s.ep ∧
      (connectFold level id sel s).maxLevel = s.maxLevel ∧
      (connectFold level id sel s).M = s.M ∧
      (connectFold level id sel s).efC = s.efC := by
  induction sel with
  | nil => intro s; exact ⟨rfl, rfl, rfl, rfl, rfl⟩
  | cons nb rest ih =>
    intro s
    have h1 := addNeighborRcu_proj s id level nb
    have h2 := addNeighborRcu_proj (addNeighborRcu s id level nb) nb level id
    have h3 := ih (addNeighborRcu (addNeighborRcu s id level nb) nb level id)
    refine ⟨?_, ?_, ?_, ?_, ?_⟩
    · exact h3.1.trans (h2.1.trans h1.1)
    · exact h3.2.1.trans (h2.2.1.trans h1.2.1)
    · exact h3.2.2.1.trans (h2.2.2.1.trans h1.2.2.1)
    · exact h3.2.2.2.1.trans (h2.2.2.2.1.trans h1.2.2.2.1)
    · exact h3.2.2.2.2.trans (h2.2.2.2.2.trans h1.2.2.2.2)

lemma connectNeighbors_proj (s : HnswState) (level id : Nat) (cands : List Nat) :
    (connectNeighbors s level id cands).level = s.level ∧
    (connectNeighbors s level id cands).ep = s.ep ∧
    (connectNeighbors s level id cands).maxLevel = s.maxLevel ∧
    (connectNeighbors s level id cands).M = s.M ∧
    (connectNeighbors s level id cands).efC = s.efC :=
  connectFold_proj level id (cands.take (min cands.length s.M)) s

lemma addNeighborInplace_proj (d : Nat → Nat → ℚ) (s : HnswState)
    (node layer newId maxM : Nat) :
    (addNeighborInplace d s node layer newId maxM).level = s.level ∧
    (addNeighborInplace d s node layer newId maxM).ep = s.ep ∧
    (addNeighborInplace d s node layer newId maxM).maxLevel = s.maxLevel ∧
    (addNeighborInplace d s node layer newId maxM).M = s.M ∧
    (addNeighborInplace d s node layer newId maxM).efC = s.efC := by
  unfold addNeighborInplace
  split <;> exact ⟨rfl, rfl, rfl, rfl, rfl⟩

lemma inplaceFold_proj (d : Nat → Nat → ℚ) (level id maxM : Nat) (sel : List Nat) :
    ∀ s : HnswState,
      ((sel.foldl (fun s nb =>
          addNeighborInplace d (addNeighborInplace d s id level nb maxM) nb level id maxM) s).level
        = s.level) ∧
      ((sel.foldl (fun s nb =>
          addNeighborInplace d (addNeighborInplace d s id level nb maxM) nb level id maxM) s).ep
        = s.ep) ∧
      ((sel.foldl (fun s nb =>
          addNeighborInplace d (addNeighborInplace d s id level nb maxM) nb level id maxM) s).maxLevel
        = s.maxLevel) ∧
      ((sel.foldl (fun s nb =>
          addNeighborInplace d (addNeighborInplace d s id level nb maxM) nb level id maxM) s).M
        = s.M) ∧
      ((sel.foldl (fun s nb =>
          addNeighborInplace d (addNeighborInplace d s id level nb maxM) nb level id maxM) s).efC
        = s.efC) := by
  induction sel with
  | nil => intro s; exact ⟨rfl, rfl, rfl, rfl, rfl⟩
  | cons nb rest ih =>
    intro s
    have h1 := addNeighborInplace_proj d s id level nb maxM
    have h2 := addNeighborInplace_proj d (addNeighborInplace d s id level nb maxM) nb level id maxM
    have h3 := ih (addNeighborInplace d (addNeighborInplace d s id level nb maxM) nb level id maxM)
    simp only [List.foldl_cons] at h3 ⊢
    refine ⟨?_, ?_, ?_, ?_, ?_⟩
    · exact h3.1.trans (h2.1.trans h1.1)
    · exact h3.2.1.trans (h2.2.1.trans h1.2.1)
    · exact h3.2.2.1.trans (h2.2.2.1.trans h1.2.2.1)
    · exact h3.2.2.2.1.trans (h2.2.2.2.1.trans h1.2.2.2.1)
    · exact h3.2.2.2.2.trans (h2.2.2.2.2.trans h1.2.2.2.2)

lemma connectNeighborsBulk_proj (d : Nat → Nat → ℚ) (s : HnswState)
    (level id : Nat) (cands : List Nat) :
    (connectNeighborsBulk d s level id cands).level = s.level ∧
    (connectNeighborsBulk d s level id cands).ep = s.ep ∧
    (connectNeighborsBulk d s level id cands).maxLevel = s.maxLevel ∧
    (connectNeighborsBulk d s level id cands).M = s.M ∧
    (connectNeighborsBulk d s level id cands).efC = s.efC :=
  inplaceFold_proj d level id (if level = 0 then s.M * 2 else s.M)
    (cands.take (min cands.length s.M)) s

lemma insertLayersStream_proj (d : Nat → Nat → ℚ) (fuel id : Nat) (levels : List Nat) :
    ∀ sc : HnswState × Nat,
      (insertLayersStream d fuel id levels sc).1.level = sc.1.level ∧
      (insertLayersStream d fuel id levels sc).1.ep = sc.1.ep ∧
      (insertLayersStream d fuel id levels sc).1.maxLevel = sc.1.maxLevel := by
  induction levels with
  | nil => intro sc; exact ⟨rfl, rfl, rfl⟩
  | cons lv rest ih =>
    intro sc
    have hc := connectNeighbors_proj sc.1 lv id
      (searchLayerE (d id) sc.1.adj lv sc.2 sc.1.efC fuel)
    have h3 := ih (connectNeighbors sc.1 lv id
      (searchLayerE (d id) sc.1.adj lv sc.2 sc.1.efC fuel),
      (searchLayerE (d id) sc.1.adj lv sc.2 sc.1.efC fuel).headD sc.2)
    simp only [insertLayersStream, List.foldl_cons] at h3 ⊢
    exact ⟨h3.1.trans hc.1, h3.2.1.trans hc.2.1, h3.2.2.trans hc.2.2.1⟩

lemma insertLayersBulk_proj (d : Nat → Nat → ℚ) (fuel id : Nat) (levels : List Nat) :
    ∀ sc : HnswState × Nat,
      (insertLayersBulk d fuel id levels sc).1.level = sc.1.level ∧
      (insertLayersBulk d fuel id levels sc).1.ep = sc.1.ep ∧
      (insertLayersBulk d fuel id levels sc).1.maxLevel = sc.1.maxLevel := by
  induction levels with
  | nil => intro sc; exact ⟨rfl, rfl, rfl⟩
  | cons lv rest ih =>
    intro sc
    have hc := connectNeighborsBulk_proj d sc.1 lv id
      (searchLayerE (d id) sc.1.adj lv sc.2 sc.1.efC fuel)
    have h3 := ih (connectNeighborsBulk d sc.1 lv id
      (searchLayerE (d id) sc.1.adj lv sc.2 sc.1.efC fuel),
      (searchLayerE (d id) sc.1.adj lv sc.2 sc.1.efC fuel).headD sc.2)
    simp only [insertLayersBulk, List.foldl_cons] at h3 ⊢
    exact ⟨h3.1.trans hc.1, h3.2.1.trans hc.2.1, h3.2.2.trans hc.2.2.1⟩

lemma insertLayersStream_level (d : Nat → Nat → ℚ) (fuel id : Nat)
    (levels : List Nat) (sc : HnswState × Nat) :
    (insertLayersStream d fuel id levels sc).1.level = sc.1.level :=
  (insertLayersStream_proj d fuel id levels sc).1

lemma insertLayersStream_ep (d : Nat → Nat → ℚ) (fuel id : Nat)
    (levels : List Nat) (sc : HnswState × Nat) :
    (insertLayersStream d fuel id levels sc).1.ep = sc.1.ep :=
  (insertLayersStream_proj d fuel id levels sc).2.1

lemma insertLayersStream_maxLevel (d : Nat → Nat → ℚ) (fuel id : Nat)
    (levels : List Nat) (sc : HnswState × Nat) :
    (insertLayersStream d fuel id levels sc).1.maxLevel = sc.1.maxLevel :=
  (insertLayersStream_proj d fuel id levels sc).2.2

lemma insertLayersBulk_level (d : Nat → Nat → ℚ) (fuel id : Nat)
    (levels : List Nat) (sc : HnswState × Nat) :
    (insertLayersBulk d fuel id levels sc).1.level = sc.1.level :=
  (insertLayersBulk_proj d fuel id levels sc).1

lemma insertLayersBulk_ep (d : Nat → Nat → ℚ) (fuel id : Nat)
    (levels : List Nat) (sc : HnswState × Nat) :
    (insertLayersBulk d fuel id levels sc).1.ep = sc.1.ep :=
  (insertLayersBulk_proj d fuel id levels sc).2.1

lemma insertLayersBulk_maxLevel (d : Nat → Nat → ℚ) (fuel id : Nat)
    (levels : List Nat) (sc : HnswState × Nat) :
    (insertLayersBulk d fuel id levels sc).1.maxLevel = sc.1.maxLevel :=
  (insertLayersBulk_proj d fuel id levels sc).2.2

lemma insertStream_level (d : Nat → Nat → ℚ) (fuel : Nat) (s : HnswState) (id lvl : Nat) :
    (insertStream d fuel s id lvl).level = Function.update s.level id (some lvl) := by
  simp only [insertStream]
  split
  · rfl
  · split <;>
      simp only [insertLayersStream_level, nodeInit_level]

lemma insertBulk_level (d : Nat → Nat → ℚ) (fuel : Nat) (s : HnswState) (id lvl : Nat) :
    (insertBulk d fuel s id lvl).level = Function.update s.level id (some lvl) := by
  simp only [insertBulk]
  split
  · rfl
  · split <;>
      simp only [insertLayersBulk_level, nodeInit_level]

lemma insertStream_maxLevel_mono (d : Nat → Nat → ℚ) (fuel : Nat)
    (s : HnswState) (id lvl : Nat) :
    s.maxLevel ≤ (insertStream d fuel s id lvl).maxLevel := by
  simp only [insertStream]
  split
  · next hcold =>
    have h0 : s.maxLevel = -1 := hcold
    show s.maxLevel ≤ (lvl : Int)
    rw [h0]; omega
  · split
    · next hgt =>
      show s.maxLevel ≤ (lvl : Int)
      have h1 : (nodeInit s id lvl).maxLevel = s.maxLevel := rfl
      rw [h1] at hgt
      omega
    · next hle =>
      simp only [insertLayersStream_maxLevel, nodeInit_maxLevel, le_refl]

lemma insertBulk_maxLevel_mono (d : Nat → Nat → ℚ) (fuel : Nat)
    (s : HnswState) (id lvl : Nat) :
    s.maxLevel ≤ (insertBulk d fuel s id lvl).maxLevel := by
  simp only [insertBulk]
  split
  · next hcold =>
    have h0 : s.maxLevel = -1 := hcold
    show s.maxLevel ≤ (lvl : Int)
    rw [h0]; omega
  · split
    · next hgt =>
      show s.maxLevel ≤ (lvl : Int)
      have h1 : (nodeInit s id lvl).maxLevel = s.maxLevel := rfl
      rw [h1] at hgt
      omega
    · next hle =>
      simp only [insertLayersBulk_maxLevel, nodeInit_maxLevel, le_refl]

lemma insertStream_entryInv (d : Nat → Nat → ℚ) (fuel : Nat) (s : HnswState)
    (id lvl : Nat) (h : EntryInv s) (hfresh : s.level id = none) :
    EntryInv (insertStream d fuel s id lvl) := by
  simp only [EntryInv, insertStream]
  split
  · next hcold =>
    intro _
    show Function.update s.level id (some lvl) id = some ((lvl : Int)).toNat
    simp
  · next hcold =>
    split
    · next hgt =>
      intro _
      simp only [insertLayersStream_level, nodeInit_level, Function.update_same,
        Int.toNat_natCast]
    · next hgt =>
      intro hpos
      simp only [insertLayersStream_level, insertLayersStream_ep, insertLayersStream_maxLevel,
        nodeInit_level, nodeInit_ep, nodeInit_maxLevel] at hpos ⊢
      have hinv := h hpos
      have hne : s.ep ≠ id := by
        intro e
        rw [e, hfresh] at hinv
        exact Option.noConfusion hinv
      rw [Function.update_noteq hne]
      exact hinv

lemma insertBulk_entryInv (d : Nat → Nat → ℚ) (fuel : Nat) (s : HnswState)
    (id lvl : Nat) (h : EntryInv s) (hfresh : s.level id = none) :
    EntryInv (insertBulk d fuel s id lvl) := by
  simp only [EntryInv, insertBulk]
  split
  · next hcold =>
    intro _
    show Function.update s.level id (some lvl) id = some ((lvl : Int)).toNat
    simp
  · next hcold =>
    split
    · next hgt =>
      intro _
      simp only [insertLayersBulk_level, nodeInit_level, Function.update_same,
        Int.toNat_natCast]
    · next hgt =>
      intro hpos
      simp only [insertLayersBulk_level, insertLayersBulk_ep, insertLayersBulk_maxLevel,
        nodeInit_level, nodeInit_ep, nodeInit_maxLevel] at hpos ⊢
      have hinv := h hpos
      have hne : s.ep ≠ id := by
        intro e
        rw [e, hfresh] at hinv
        exact Option.noConfusion hinv
      rw [Function.update_noteq hne]
      exact hinv

lemma hnswStep_level (d : Nat → Nat → ℚ) (fuel : Nat) (s : HnswState)
    (op : Bool × Nat × Nat) :
    (hnswStep d fuel s op).level = Function.update s.level op.2.1 (some op.2.2) := by
  unfold hnswStep
  split
  · exact insertBulk_level d fuel s op.2.1 op.2.2
  · exact insertStream_level d fuel s op.2.1 op.2.2

lemma hnswStep_maxLevel_mono (d : Nat → Nat → ℚ) (fuel : Nat) (s : HnswState)
    (op : Bool × Nat × Nat) :
    s.maxLevel ≤ (hnswStep d fuel s op).maxLevel := by
  unfold hnswStep
  split
  · exact insertBulk_maxLevel_mono d fuel s op.2.1 op.2.2
  · exact insertStream_maxLevel_mono d fuel s op.2.1 op.2.2

lemma hnswStep_entryInv (d : Nat → Nat → ℚ) (fuel : Nat) (s : HnswState)
    (op : Bool × Nat × Nat) (h : EntryInv s) (hfresh : s.level op.2.1 = none) :
    EntryInv (hnswStep d fuel s op) := by
  unfold hnswStep
  split
  · exact insertBulk_entryInv d fuel s op.2.1 op.2.2 h hfresh
  · exact insertStream_entryInv d fuel s op.2.1 op.2.2 h hfresh

lemma foldl_hnswStep_mono (d : Nat → Nat → ℚ) (fuel : Nat) (ops : List (Bool × Nat × Nat)) :
    ∀ s : HnswState, s.maxLevel ≤ (ops.foldl (hnswStep d fuel) s).maxLevel := by
  induction ops with
  | nil => intro s; exact le_refl _
  | cons op rest ih =>
    intro s
    exact le_trans (hnswStep_maxLevel_mono d fuel s op) (ih (hnswStep d fuel s op))

lemma foldl_hnswStep_entryInv (d : Nat → Nat → ℚ) (fuel : Nat)
    (ops : List (Bool × Nat × Nat)) :
    ∀ s : HnswState, EntryInv s → (∀ op ∈ ops, s.level op.2.1 = none) →
      (ops.map (fun op => op.2.1)).Nodup →
      EntryInv (ops.foldl (hnswStep d fuel) s) := by
  induction ops with
  | nil => intro s h _ _; exact h
  | cons op rest ih =>
    intro s h hfresh hnd
    rw [List.map_cons, List.nodup_cons] at hnd
    refine ih (hnswStep d fuel s op)
      (hnswStep_entryInv d fuel s op h (hfresh op (by simp))) ?_ hnd.2
    intro op' hop'
    rw [hnswStep_level]
    have hne : op'.2.1 ≠ op.2.1 := by
      intro e
      exact hnd.1 (e ▸ List.mem_map_of_mem (fun o => o.2.1) hop')
    rw [Function.update_noteq hne]
    exact hfresh op' (List.mem_cons_of_mem _ hop')

/-- C6 (amended): across every sequence of `insert` / `insert_bulk`
operations — duplicate ids included — the global `max_level` never
decreases; and when the inserted ids are pairwise distinct (the data model
makes id uniqueness the caller's responsibility), whenever `max_level ≥ 0`
the node stored as entry point has `top_level` equal to `max_level`. -/
theorem C6_maxLevel_mono_and_entry_level (d : Nat → Nat → ℚ) (fuel me M efC : Nat)
    (ops pre suf : List (Bool × Nat × Nat)) (hops : ops = pre ++ suf) :
    (runInserts d fuel (initIndex me M efC) pre).maxLevel ≤
      (runInserts d fuel (initIndex me M efC) ops).maxLevel ∧
    ((ops.map (fun op => op.2.1)).Nodup →
      0 ≤ (runInserts d fuel (initIndex me M efC) ops).maxLevel →
      (runInserts d fuel (initIndex me M efC) ops).level
          (runInserts d fuel (initIndex me M efC) ops).ep =
        some (runInserts d fuel (initIndex me M efC) ops).maxLevel.toNat) := by
  constructor
  · rw [hops]
    unfold runInserts
    rw [List.foldl_append]
    exact foldl_hnswStep_mono d fuel suf _
  · intro hnd
    exact foldl_hnswStep_entryInv d fuel ops (initIndex me M efC)
      (fun hpos => absurd hpos (by simp [initIndex]))
      (fun _ _ => rfl) hnd

theorem C6_maxLevel_mono_and_entry_level_witness :
    ((runInserts (fun _ _ => (0 : ℚ)) 5 (initIndex 4 1 10) [(false, 0, 1)]).maxLevel ≤
      (runInserts (fun _ _ => (0 : ℚ)) 5 (initIndex 4 1 10)
        [(false, 0, 1), (false, 0, 0)]).maxLevel) ∧
    ((runInserts (fun _ _ => (0 : ℚ)) 5 (initIndex 8 1 10) [(false, 3, 1)]).maxLevel ≤
      (runInserts (fun _ _ => (0 : ℚ)) 5 (initIndex 8 1 10)
        [(false, 3, 1), (true, 4, 0)]).maxLevel) ∧
    (runInserts (fun _ _ => (0 : ℚ)) 5 (initIndex 8 1 10)
        [(false, 3, 1), (true, 4, 0)]).level
        (runInserts (fun _ _ => (0 : ℚ)) 5 (initIndex 8 1 10)
          [(false, 3, 1), (true, 4, 0)]).ep =
      some (runInserts (fun _ _ => (0 : ℚ)) 5 (initIndex 8 1 10)
        [(false, 3, 1), (true, 4, 0)]).maxLevel.toNat := by
  have hdup := C6_maxLevel_mono_and_entry_level (fun _ _ => (0 : ℚ)) 5 4 1 10
    [(false, 0, 1), (false, 0, 0)] [(false, 0, 1)] [(false, 0, 0)] rfl
  have h := C6_maxLevel_mono_and_entry_level (fun _ _ => (0 : ℚ)) 5 8 1 10
    [(false, 3, 1), (true, 4, 0)] [(false, 3, 1)] [(true, 4, 0)] rfl
  exact ⟨hdup.1, h.1, h.2 (by decide) (by decide)⟩

/-- C6 as stated is false: re-inserting the entry point's id with a lower
drawn level re-runs `HnswNode::init`, overwriting the node's `top_level`,
while neither the entry point nor `max_level` changes; afterwards the entry
point's `top_level` (0) differs from `max_level` (1). -/
theorem C6_entry_level_counterexample :
    (runInserts (fun _ _ => (0 : ℚ)) 5 (initIndex 4 1 10)
        [(false, 0, 1), (false, 0, 0)]).maxLevel = 1 ∧
    (runInserts (fun _ _ => (0 : ℚ)) 5 (initIndex 4 1 10)
        [(false, 0, 1), (false, 0, 0)]).level
        (runInserts (fun _ _ => (0 : ℚ)) 5 (initIndex 4 1 10)
          [(false, 0, 1), (false, 0, 0)]).ep = some 0 ∧
    ¬ (some 0 = some (runInserts (fun _ _ => (0 : ℚ)) 5 (initIndex 4 1 10)
        [(false, 0, 1), (false, 0, 0)]).maxLevel.toNat) := by
  refine ⟨by decide, by decide, by decide⟩

/-- C4: contrary to the claim, the core performs no capacity check at all:
`HnswIndex::insert` calls `get_node(id) = &nodes_[id]` and initialises the
node record even when `id ≥ max_elements` (here `max_elements = 1`,
`id = 1`), returning `void` — the index is modified, out of bounds, and no
error is reported. -/
theorem C4_insert_unchecked_capacity :
    (initIndex 1 16 100).level 1 = none ∧
    ¬ (1 < (initIndex 1 16 100).maxElements) ∧
    (insertStream (fun _ _ => (0 : ℚ)) 3 (initIndex 1 16 100) 1 0).level 1 = some 0 := by
  refine ⟨rfl, by decide, ?_⟩
  rw [insertStream_level]
  simp

/-- C9: a kNN search against an index into which nothing has ever been
inserted (`max_level_` still `-1`) returns the empty list, for every query
(distance oracle), `k`, `ef_search` and fuel. -/
theorem C9_search_empty_index (dq : Nat → ℚ) (me M efC k efSearch fuel : Nat) :
    searchKnn dq (initIndex me M efC) k efSearch fuel = [] := rfl

lemma addNeighborRcu_adj_self (s : HnswState) (u layer v : Nat)
    (hlayer : layer < MAX_HNSW_LEVELS) :
    (addNeighborRcu s u layer v).adj u layer = s.adj u layer ++ [v] := by
  unfold addNeighborRcu
  rw [if_neg (by omega)]
  simp

lemma addNeighborRcu_adj_ne (s : HnswState) (u layer v w l' : Nat)
    (h : w ≠ u ∨ l' ≠ layer) :
    (addNeighborRcu s u layer v).adj w l' = s.adj w l' := by
  unfold addNeighborRcu
  split
  · rfl
  · rcases h with h | h
    · simp [Function.update_noteq h]
    · by_cases hw : w = u
      · subst hw
        simp [Function.update_same, Function.update_noteq h]
      · simp [Function.update_noteq hw]

lemma connectFold_adj (level id : Nat) (hlayer : level < MAX_HNSW_LEVELS)
    (sel : List Nat) :
    ∀ s : HnswState, id ∉ sel → sel.Nodup →
      ((connectFold level id sel s).adj id level = s.adj id level ++ sel) ∧
      (∀ nb ∈ sel, (connectFold level id sel s).adj nb level = s.adj nb level ++ [id]) ∧
      (∀ u, u ≠ id → u ∉ sel → (connectFold level id sel s).adj u level = s.adj u level) := by
  induction sel with
  | nil =>
    intro s _ _
    exact ⟨by simp [connectFold], by simp, fun u _ _ => rfl⟩
  | cons nb rest ih =>
    intro s hid hnd
    have hnbid : nb ≠ id := by
      intro e
      exact hid (by rw [e]; exact List.mem_cons_self _ _)
    rw [List.nodup_cons] at hnd
    have hid' : id ∉ rest := fun h => hid (List.mem_cons_of_mem _ h)
    have hstep : connectFold level id (nb :: rest) s =
        connectFold level id rest (addNeighborRcu (addNeighborRcu s id level nb) nb level id) := by
      simp [connectFold]
    obtain ⟨ih1, ih2, ih3⟩ :=
      ih (addNeighborRcu (addNeighborRcu s id level nb) nb level id) hid' hnd.2
    have hadj_id :
        (addNeighborRcu (addNeighborRcu s id level nb) nb level id).adj id level =
          s.adj id level ++ [nb] := by
      rw [addNeighborRcu_adj_ne _ _ _ _ _ _ (Or.inl (Ne.symm hnbid)),
        addNeighborRcu_adj_self _ _ _ _ hlayer]
    have hadj_nb :
        (addNeighborRcu (addNeighborRcu s id level nb) nb level id).adj nb level =
          s.adj nb level ++ [id] := by
      rw [addNeighborRcu_adj_self _ _ _ _ hlayer,
        addNeighborRcu_adj_ne _ _ _ _ _ _ (Or.inl hnbid)]
    refine ⟨?_, ?_, ?_⟩
    · rw [hstep, ih1, hadj_id, List.append_assoc, List.singleton_append]
    · intro nb' hnb'
      rcases List.mem_cons.mp hnb' with rfl | hnb'
      · rw [hstep, ih3 nb' hnbid hnd.1, hadj_nb]
      · have hne_nb : nb' ≠ nb := by
          intro e
          exact hnd.1 (e ▸ hnb')
        have hne_id : nb' ≠ id := by
          intro e
          exact hid' (e ▸ hnb')
        rw [hstep, ih2 nb' hnb',
          addNeighborRcu_adj_ne _ _ _ _ _ _ (Or.inl hne_nb),
          addNeighborRcu_adj_ne _ _ _ _ _ _ (Or.inl hne_id)]
    · intro u hu hun
      have hune : u ≠ nb := by
        intro e
        exact hun (by rw [e]; exact List.mem_cons_self _ _)
      have hun' : u ∉ rest := fun h => hun (List.mem_cons_of_mem _ h)
      rw [hstep, ih3 u hu hun',
        addNeighborRcu_adj_ne _ _ _ _ _ _ (Or.inl hune),
        addNeighborRcu_adj_ne _ _ _ _ _ _ (Or.inl hu)]

/-- C2 (amended): at every layer the streaming insert selects up to `M`
nearest candidates — `M` also at layer 0; `M0 = 2M` is used only as the
pruning bound of the bulk path — and, for each selected candidate, adds both
the edge new→neighbor and the edge neighbor→new.  Stated over
`connectNeighbors`, the per-layer connection step that `insert` applies at
every layer from `min(max_level, ℓ)` down to 0. -/
theorem C2_bidirectional_edges_upto_M (s : HnswState) (level id : Nat)
    (cands : List Nat) (hlayer : level < MAX_HNSW_LEVELS) (hid : id ∉ cands)
    (hnd : cands.Nodup) :
    (cands.take (min cands.length s.M)).length = min cands.length s.M ∧
    (connectNeighbors s level id cands).adj id level =
      s.adj id level ++ cands.take (min cands.length s.M) ∧
    ∀ nb ∈ cands.take (min cands.length s.M),
      (connectNeighbors s level id cands).adj nb level = s.adj nb level ++ [id] := by
  have hsub : id ∉ cands.take (min cands.length s.M) :=
    fun hmem => hid (List.mem_of_mem_take hmem)
  have hnd' : (cands.take (min cands.length s.M)).Nodup :=
    hnd.sublist (List.take_sublist _ _)
  have h := connectFold_adj level id hlayer (cands.take (min cands.length s.M)) s hsub hnd'
  refine ⟨?_, h.1, h.2.1⟩
  rw [List.length_take]
  omega

theorem C2_bidirectional_edges_upto_M_witness :
    ((([10, 11] : List Nat).take (min ([10, 11] : List Nat).length
        (⟨8, 1, 10, 0, 0, fun _ => some 0, fun _ _ => []⟩ : HnswState).M)).length =
      min ([10, 11] : List Nat).length
        (⟨8, 1, 10, 0, 0, fun _ => some 0, fun _ _ => []⟩ : HnswState).M) ∧
    (connectNeighbors (⟨8, 1, 10, 0, 0, fun _ => some 0, fun _ _ => []⟩ : HnswState)
        0 2 [10, 11]).adj 2 0 =
      (⟨8, 1, 10, 0, 0, fun _ => some 0, fun _ _ => []⟩ : HnswState).adj 2 0 ++
        ([10, 11] : List Nat).take (min ([10, 11] : List Nat).length
          (⟨8, 1, 10, 0, 0, fun _ => some 0, fun _ _ => []⟩ : HnswState).M) :=
  ⟨(C2_bidirectional_edges_upto_M ⟨8, 1, 10, 0, 0, fun _ => some 0, fun _ _ => []⟩
      0 2 [10, 11] (by decide) (by decide) (by decide)).1,
   (C2_bidirectional_edges_upto_M ⟨8, 1, 10, 0, 0, fun _ => some 0, fun _ _ => []⟩
      0 2 [10, 11] (by decide) (by decide) (by decide)).2.1⟩

/-- C2 as stated is false at layer 0: with `M = 1` (`M0 = 2`), after
bulk-free streaming inserts of ids 0 and 1 at level 0 (adjacent to each
other), inserting id 2 at level 0 finds two candidates in `search_layer` at
layer 0 but connects only `min(2, M) = 1` of them, not `min(2, M0) = 2`. -/
theorem C2_layer0_selects_M_not_M0 :
    (searchLayerE (dC2 2)
        (runInserts dC2 9 (initIndex 4 1 10) [(false, 0, 0), (false, 1, 0)]).adj 0
        (runInserts dC2 9 (initIndex 4 1 10) [(false, 0, 0), (false, 1, 0)]).ep 10 9).length
      = 2 ∧
    ((insertStream dC2 9
        (runInserts dC2 9 (initIndex 4 1 10) [(false, 0, 0), (false, 1, 0)]) 2 0).adj 2 0).length
      = 1 ∧
    ¬ (((insertStream dC2 9
        (runInserts dC2 9 (initIndex 4 1 10) [(false, 0, 0), (false, 1, 0)]) 2 0).adj 2 0).length
      = min 2 (2 * (runInserts dC2 9 (initIndex 4 1 10) [(false, 0, 0), (false, 1, 0)]).M)) := by
  refine ⟨by decide, by decide, by decide⟩

lemma pushBounded_length (ef : Nat) (x : NodeDist) (l : List NodeDist)
    (h : l.length ≤ ef) : (pushBounded ef x l).length ≤ ef := by
  simp only [pushBounded]
  split
  · next hlen =>
    rw [List.length_dropLast, List.orderedInsert_length]
    omega
  · next hlen =>
    rw [List.orderedInsert_length] at hlen ⊢
    omega

lemma pushBounded_sorted (ef : Nat) (x : NodeDist) (l : List NodeDist)
    (h : l.Sorted ndLE) : (pushBounded ef x l).Sorted ndLE := by
  simp only [pushBounded]
  split
  · exact List.Pairwise.sublist (List.dropLast_sublist _) (h.orderedInsert x l)
  · exact h.orderedInsert x l

lemma pushBounded_mem (ef : Nat) (x : NodeDist) (l : List NodeDist) (y : NodeDist)
    (hy : y ∈ pushBounded ef x l) : y = x ∨ y ∈ l := by
  simp only [pushBounded] at hy
  split at hy
  · exact (List.mem_orderedInsert ndLE).mp ((List.dropLast_sublist _).subset hy)
  · exact (List.mem_orderedInsert ndLE).mp hy

lemma expandNeighbors_inv (dq : Nat → ℚ) (ef : Nat) (ns : List Nat) :
    ∀ st : SLState, SLInv dq ef st → SLInv dq ef (expandNeighbors dq ef ns st) := by
  induction ns with
  | nil => intro st h; exact h
  | cons n rest ih =>
    intro st h
    simp only [expandNeighbors]
    split
    · exact ih st h
    · split
      · refine ih _ ⟨pushBounded_length ef _ _ h.1, pushBounded_sorted ef _ _ h.2.1, ?_⟩
        intro x hx
        rcases pushBounded_mem ef _ _ x hx with rfl | hx'
        · rfl
        · exact h.2.2 x hx'
      · exact ih _ ⟨h.1, h.2.1, h.2.2⟩

lemma searchLoop_inv (dq : Nat → ℚ) (adjL : Nat → List Nat) (ef : Nat) :
    ∀ (fuel : Nat) (st : SLState),
      SLInv dq ef st → SLInv dq ef (searchLoop dq adjL ef fuel st) := by
  intro fuel
  induction fuel with
  | zero => intro st h; exact h
  | succ n ih =>
    intro st h
    obtain ⟨top, cand, vis⟩ := st
    cases cand with
    | nil => exact h
    | cons c rest =>
      simp only [searchLoop]
      split
      · exact h
      · exact ih _ (expandNeighbors_inv dq ef _ _ ⟨h.1, h.2.1, h.2.2⟩)

/-- C5: for every query distance oracle, adjacency, entry id and `ef ≥ 1`,
`search_layer` returns at most `ef` ids sorted by ascending distance to the
query, and its loop stops expanding exactly when the nearest unexpanded
candidate's distance exceeds the frontier's worst distance while the frontier
holds `ef` elements (otherwise it pops the candidate and expands its
neighbors at the layer). -/
theorem C5_search_layer_bound_sorted_break (dq : Nat → ℚ)
    (adj : Nat → Nat → List Nat) (level ep ef fuel : Nat) (hef : 1 ≤ ef) :
    (searchLayerE dq adj level ep ef fuel).length ≤ ef ∧
    (searchLayerE dq adj level ep ef fuel).Sorted (fun a b => dq a ≤ dq b) ∧
    (∀ (st : SLState) (c : NodeDist) (rest : List NodeDist), st.cand = c :: rest →
      ((topWorst st.top < c.dist ∧ st.top.length = ef) →
        searchLoop dq (fun u => adj u level) ef (fuel + 1) st = st) ∧
      (¬ (topWorst st.top < c.dist ∧ st.top.length = ef) →
        searchLoop dq (fun u => adj u level) ef (fuel + 1) st =
          searchLoop dq (fun u => adj u level) ef fuel
            (expandNeighbors dq ef (adj c.id level) ⟨st.top, rest, st.visited⟩))) := by
  have hinv := searchLoop_inv dq (fun u => adj u level) ef fuel
    ⟨[⟨ep, dq ep⟩], [⟨ep, dq ep⟩], [ep]⟩
    ⟨by simpa using hef, List.sorted_singleton _, by simp⟩
  refine ⟨?_, ?_, ?_⟩
  · unfold searchLayerE
    rw [List.length_map]
    exact hinv.1
  · unfold searchLayerE
    rw [List.Sorted, List.pairwise_map]
    refine List.Pairwise.imp_of_mem ?_ hinv.2.1
    intro a b ha hb hab
    have hda := hinv.2.2 a ha
    have hdb := hinv.2.2 b hb
    rw [← hda, ← hdb]
    exact hab
  · intro st c rest hcand
    obtain ⟨top, cand, vis⟩ := st
    simp only at hcand
    subst hcand
    constructor
    · intro hc
      simp only [searchLoop]
      rw [if_pos hc]
    · intro hc
      simp only [searchLoop]
      rw [if_neg hc]

theorem C5_search_layer_bound_sorted_break_witness :
    (searchLayerE (fun n => (n : ℚ)) (fun u _ => if u = 0 then [1, 2, 3] else []) 0 0 2 5).length
      ≤ 2 ∧
    (searchLayerE (fun n => (n : ℚ)) (fun u _ => if u = 0 then [1, 2, 3] else []) 0 0 2 5).Sorted
      (fun a b : Nat => ((a : ℚ)) ≤ ((b : ℚ))) :=
  ⟨(C5_search_layer_bound_sorted_break (fun n => (n : ℚ))
      (fun u _ => if u = 0 then [1, 2, 3] else []) 0 0 2 5 (by decide)).1,
   (C5_search_layer_bound_sorted_break (fun n => (n : ℚ))
      (fun u _ => if u = 0 then [1, 2, 3] else []) 0 0 2 5 (by decide)).2.1⟩

lemma heurSelect_length (d : Nat → Nat → ℚ) (node maxM : Nat) :
    ∀ (cands : List (ℚ × Nat)) (sel : List Nat), sel.length ≤ maxM →
      (heurSelect d node maxM cands sel).length ≤ maxM := by
  intro cands
  induction cands with
  | nil => intro sel h; exact h
  | cons c rest ih =>
    intro sel h
    simp only [heurSelect]
    split
    · exact h
    · next hlt =>
      split
      · refine ih (sel ++ [c.2]) ?_
        rw [List.length_append]
        simp only [List.length_singleton]
        omega
      · exact ih sel h

lemma backfillFrom_length (maxM : Nat) :
    ∀ (cands : List (ℚ × Nat)) (sel : List Nat), sel.length ≤ maxM →
      (backfillFrom maxM cands sel).length ≤ maxM := by
  intro cands
  induction cands with
  | nil => intro sel h; exact h
  | cons c rest ih =>
    intro sel h
    simp only [backfillFrom]
    split
    · exact h
    · next hlt =>
      split
      · exact ih sel h
      · refine ih (sel ++ [c.2]) ?_
        rw [List.length_append]
        simp only [List.length_singleton]
        omega

lemma heurSelect_pairwise (d : Nat → Nat → ℚ) (node maxM : Nat) :
    ∀ (cands : List (ℚ × Nat)) (sel : List Nat),
      (∀ p ∈ cands, p.1 = d node p.2) →
      List.Pairwise (fun s c => d node c ≤ d c s) sel →
      List.Pairwise (fun s c => d node c ≤ d c s) (heurSelect d node maxM cands sel) := by
  intro cands
  induction cands with
  | nil => intro sel _ h; exact h
  | cons c rest ih =>
    intro sel hfst hp
    simp only [heurSelect]
    split
    · exact hp
    · split
      · next hall =>
        refine ih (sel ++ [c.2]) (fun p hp' => hfst p (List.mem_cons_of_mem _ hp')) ?_
        rw [List.pairwise_append]
        refine ⟨hp, List.pairwise_singleton _ _, ?_⟩
        intro s hs b hb
        rw [List.mem_singleton] at hb
        subst hb
        have h1 := List.all_eq_true.mp hall s hs
        have h2 : ¬ (d c.2 s < c.1) := of_decide_eq_true h1
        have h3 : c.1 = d node c.2 := hfst c (List.mem_cons_self _ _)
        rw [h3] at h2
        exact le_of_not_lt h2
      · exact ih sel (fun p hp' => hfst p (List.mem_cons_of_mem _ hp')) hp

lemma backfillFrom_decomp (maxM : Nat) :
    ∀ (cands : List (ℚ × Nat)) (sel : List Nat),
      ∃ fill, backfillFrom maxM cands sel = sel ++ fill ∧ fill.Nodup ∧
        (∀ x ∈ fill, x ∉ sel) ∧ (∀ x ∈ fill, x ∈ cands.map Prod.snd) := by
  intro cands
  induction cands with
  | nil =>
    intro sel
    exact ⟨[], by simp [backfillFrom], List.nodup_nil, by simp, by simp⟩
  | cons c rest ih =>
    intro sel
    simp only [backfillFrom]
    split
    · exact ⟨[], by simp, List.nodup_nil, by simp, by simp⟩
    · split
      · next hmem =>
        obtain ⟨fill, h1, h2, h3, h4⟩ := ih sel
        exact ⟨fill, h1, h2, h3,
          fun x hx => by simpa using Or.inr (by simpa using h4 x hx)⟩
      · next hmem =>
        obtain ⟨fill, h1, h2, h3, h4⟩ := ih (sel ++ [c.2])
        refine ⟨c.2 :: fill, ?_, ?_, ?_, ?_⟩
        · rw [h1, List.append_assoc, List.singleton_append]
        · rw [List.nodup_cons]
          refine ⟨fun hc => ?_, h2⟩
          exact h3 c.2 hc (by simp)
        · intro x hx
          rcases List.mem_cons.mp hx with rfl | hx'
          · exact hmem
          · intro hxs
            exact h3 x hx' (List.mem_append_left _ hxs)
        · intro x hx
          rcases List.mem_cons.mp hx with rfl | hx'
          · simp
          · simpa using Or.inr (by simpa using h4 x hx')

lemma sortedCands_snd_perm (d : Nat → Nat → ℚ) (node : Nat) (l1 : List Nat) :
    List.Perm ((sortedCands d node l1).map Prod.snd) l1 := by
  unfold sortedCands
  refine ((List.perm_insertionSort pairLe _).map Prod.snd).trans ?_
  rw [List.map_map]
  have hcomp : (Prod.snd ∘ fun c : Nat => (d node c, c)) = id := rfl
  rw [hcomp, List.map_id]

lemma sortedCands_fst (d : Nat → Nat → ℚ) (node : Nat) (l1 : List Nat) :
    ∀ p ∈ sortedCands d node l1, p.1 = d node p.2 := by
  intro p hp
  unfold sortedCands at hp
  have hp' := (List.perm_insertionSort pairLe _).subset hp
  obtain ⟨c, _, rfl⟩ := List.mem_map.mp hp'
  rfl

lemma pruneNeighborList_length (d : Nat → Nat → ℚ) (node maxM : Nat) (l1 : List Nat) :
    (pruneNeighborList d node maxM l1).length ≤ maxM := by
  simp only [pruneNeighborList]
  split
  · exact backfillFrom_length maxM _ _
      (heurSelect_length d node maxM _ [] (by simp))
  · exact heurSelect_length d node maxM _ [] (by simp)

lemma pruneNeighborList_decomp (d : Nat → Nat → ℚ) (node maxM : Nat) (l1 : List Nat) :
    ∃ fill, pruneNeighborList d node maxM l1 =
        heurSelect d node maxM (sortedCands d node l1) [] ++ fill ∧
      fill.Nodup ∧
      (∀ x ∈ fill, x ∉ heurSelect d node maxM (sortedCands d node l1) []) ∧
      (∀ x ∈ fill, x ∈ l1) := by
  simp only [pruneNeighborList]
  split
  · obtain ⟨fill, h1, h2, h3, h4⟩ :=
      backfillFrom_decomp maxM (sortedCands d node l1)
        (heurSelect d node maxM (sortedCands d node l1) [])
    exact ⟨fill, h1, h2, h3,
      fun x hx => (sortedCands_snd_perm d node l1).subset (h4 x hx)⟩
  · exact ⟨[], (List.append_nil _).symm, List.nodup_nil, by simp, by simp⟩

/-- C8: `add_neighbor_inplace` (a) leaves the list — and the index state —
unchanged when the new id is already present, and (b) when the count exceeds
`max_m` after the append, prunes to at most `max_m` entries: the heuristic
pass walks the (distance, id)-sorted candidates and every kept candidate `c`
satisfies `d(c, s) ≥ d(c, node)` against each candidate `s` selected before
it; the remaining slots are then filled from the sorted candidates without
introducing duplicates. -/
theorem C8_add_neighbor_inplace_dedup_prune (d : Nat → Nat → ℚ)
    (hsym : ∀ a b, d a b = d b a) (s : HnswState) (node layer maxM newId : Nat)
    (hlayer : layer < MAX_HNSW_LEVELS) (list0 : List Nat) :
    (newId ∈ list0 → addNeighborInplaceList d node maxM list0 newId = list0) ∧
    (newId ∈ s.adj node layer → addNeighborInplace d s node layer newId maxM = s) ∧
    (newId ∉ list0 → maxM < list0.length + 1 →
      (addNeighborInplaceList d node maxM list0 newId).length ≤ maxM ∧
      (sortedCands d node (list0 ++ [newId])).Sorted pairLe ∧
      List.Pairwise (fun s' c => d c node ≤ d c s')
        (heurSelect d node maxM (sortedCands d node (list0 ++ [newId])) []) ∧
      ∃ fill,
        addNeighborInplaceList d node maxM list0 newId =
          heurSelect d node maxM (sortedCands d node (list0 ++ [newId])) [] ++ fill ∧
        fill.Nodup ∧
        (∀ x ∈ fill, x ∉ heurSelect d node maxM (sortedCands d node (list0 ++ [newId])) []) ∧
        (∀ x ∈ fill, x ∈ list0 ++ [newId])) := by
  have hdedup : ∀ l : List Nat, newId ∈ l → addNeighborInplaceList d node maxM l newId = l := by
    intro l h
    simp only [addNeighborInplaceList]
    rw [if_pos h]
  refine ⟨hdedup list0, ?_, ?_⟩
  · intro hmem
    simp only [addNeighborInplace]
    rw [if_neg (by omega)]
    simp only [hdedup (s.adj node layer) hmem, Function.update_eq_self]
  · intro hnot hcnt
    have hres : addNeighborInplaceList d node maxM list0 newId =
        pruneNeighborList d node maxM (list0 ++ [newId]) := by
      simp only [addNeighborInplaceList]
      rw [if_neg hnot, if_pos (by rw [List.length_append]; simpa using hcnt)]
    refine ⟨?_, ?_, ?_, ?_⟩
    · rw [hres]
      exact pruneNeighborList_length d node maxM _
    · exact List.sorted_insertionSort pairLe _
    · refine List.Pairwise.imp ?_
        (heurSelect_pairwise d node maxM (sortedCands d node (list0 ++ [newId])) []
          (sortedCands_fst d node _) List.Pairwise.nil)
      intro a b h
      rw [hsym b node]
      exact h
    · rw [hres]
      exact pruneNeighborList_decomp d node maxM _

theorem C8_add_neighbor_inplace_dedup_prune_witness :
    addNeighborInplaceList (fun _ _ => (0 : ℚ)) 0 1 [2, 3] 2 = [2, 3] ∧
    (addNeighborInplaceList (fun _ _ => (0 : ℚ)) 0 1 [2, 3] 4).length ≤ 1 :=
  ⟨(C8_add_neighbor_inplace_dedup_prune (fun _ _ => (0 : ℚ)) (fun _ _ => rfl)
      (initIndex 4 1 10) 0 0 1 2 (by decide) [2, 3]).1 (by decide),
   ((C8_add_neighbor_inplace_dedup_prune (fun _ _ => (0 : ℚ)) (fun _ _ => rfl)
      (initIndex 4 1 10) 0 0 1 4 (by decide) [2, 3]).2.2 (by decide) (by decide)).1⟩

end VectorSearch
